import Mathlib

set_option maxHeartbeats 800000

/-!
A shallow embedding of `uioctl.c` (userspace I/O manipulation utility).

The embedding covers: the getopt option-processing loop of `main`
(lines 119-166), the device-session open/mmap sequence (lines 207-213),
the register read loop and the register write (lines 217-225), the hex
output format of line 220, and the interrupt monitor loop (lines 71-105).
Machine integers are modelled as `Nat` (with explicit `% 2 ^ w` where
overflow matters) and `Int` for the promotion of `char` to `int` at
line 101; the host is taken to be a little-endian Linux with the SysV
signed-char ABI, as on x86-64.
-/

namespace Uioctl

/-- One 32-bit load from the register mapping, line 219 of `main`:
`value = *((unsigned *) (ptr + addr))`; on a little-endian host this is the
little-endian decode of the four mapped bytes at byte offset `addr`.
The mapping contents are a byte-addressed map `mem`. -/
def readWordAt (mem : Nat → Nat) (addr : Nat) : Nat :=
  mem addr + mem (addr + 1) * 256 + mem (addr + 2) * 65536 + mem (addr + 3) * 16777216

/-- The 32-bit store of line 224: `*((unsigned *)(ptr + addr)) = value`,
placing the four little-endian bytes of `value` (a 32-bit store keeps
`value mod 2^32`) at byte offsets `addr .. addr + 3`. -/
def writeWord (mem : Nat → Nat) (addr v : Nat) : Nat → Nat := fun a =>
  if a = addr then v % 256
  else if a = addr + 1 then v / 256 % 256
  else if a = addr + 2 then v / 65536 % 256
  else if a = addr + 3 then v / 16777216 % 256
  else mem a

/-- The read-mode loop of lines 217-222: one `(addr, value)` pair per
iteration, `count` iterations, `addr += width` with the validated
`width = 4`. No bound of any kind is compared against `addr`. -/
def readWords (mem : Nat → Nat) : Nat → Nat → List (Nat × Nat)
  | _, 0 => []
  | addr, n + 1 => (addr, readWordAt mem addr) :: readWords mem (addr + 4) n

/-- Hexadecimal digits of `n`, most significant first, exactly as
`printf %x` renders them (lowercase, at least one digit). -/
def hexDigits (n : Nat) : List Char :=
  if _h : n < 16 then [Nat.digitChar n]
  else hexDigits (n / 16) ++ [Nat.digitChar (n % 16)]
termination_by n
decreasing_by exact Nat.div_lt_self (by omega) (by omega)

/-- Zero padding of the `%08x` conversion: pad on the left with digit 0 to
a minimum field width of 8. -/
def pad8 (l : List Char) : List Char := List.replicate (8 - l.length) '0' ++ l

/-- The `%08x` conversion used twice in line 220. -/
def hex8 (v : Nat) : String := String.mk (pad8 (hexDigits v))

/-- One output line of the read loop, line 220:
`printf("0x%08x\t%08x\n", addr, value)`. -/
def printLine (addr value : Nat) : String :=
  "0x" ++ hex8 addr ++ "\t" ++ hex8 value ++ "\n"

/-- Outcome of the open/mmap sequence of `main`. `mapError` is the outcome
the spec demands when the mapping cannot be established; the code has no
branch producing it. -/
inductive SessionOutcome where
  | openError
  | mapError
  | proceed (mapValid : Bool)
  deriving DecidableEq

/-- Lines 207-213 of `main`: `fd = open(fpath, O_RDWR|O_SYNC)`; on failure
return `EXIT_FAILURE` (no handle was opened); on success
`ptr = mmap(NULL, map_size, ..., fd, 0)`, whose result is never compared
against `MAP_FAILED`, and execution proceeds to the access phase either
way. The second component records whether the file descriptor is still
open when the sequence finishes. -/
def openForRegisters (openOk mapOk : Bool) : SessionOutcome × Bool :=
  if openOk then (SessionOutcome.proceed mapOk, true)
  else (SessionOutcome.openError, false)

/-- Observable result of one read-mode invocation after option and
argument processing: process exit status, number of `open` calls issued
against the device file, number of 32-bit dereferences of the mapping,
and the emitted register lines. -/
structure RunResult where
  exitCode : Nat
  opens : Nat
  derefs : Nat
  lines : List String
  deriving DecidableEq

/-- Read mode of `main` (lines 205-231): open and map, then the loop of
lines 217-222 (one mapping dereference per loop iteration, `count` in
total), `munmap`/`close` (failures there are ignored), and
`return EXIT_SUCCESS`. A dereference through a failed mapping is modelled
as a fatal fault (exit status 139, SIGSEGV): the code never branches on
the mmap result, so with `count > 0` and an invalid mapping the first
load faults; with `count = 0` the loop body never runs, so nothing is
dereferenced and no fault can occur. -/
def runReadMode (openOk mapOk : Bool) (mem : Nat → Nat) (addr count : Nat) : RunResult :=
  match openForRegisters openOk mapOk with
  | (SessionOutcome.openError, _) => ⟨1, 1, 0, []⟩
  | (SessionOutcome.mapError, _) => ⟨1, 1, 0, []⟩
  | (SessionOutcome.proceed mapValid, _) =>
    if 0 < count ∧ mapValid = false then ⟨139, 1, 1, []⟩
    else ⟨0, 1, count, (readWords mem addr count).map fun p => printLine p.1 p.2⟩

/-- The four values of `enum mode_type` (lines 36-41). -/
inductive ModeType where
  | read
  | write
  | list
  | monitor
  deriving DecidableEq

/-- The locals of `main` that the getopt loop updates (lines 110-117). -/
structure Config where
  mode : ModeType
  region : Nat
  count : Nat
  width : Nat
  forever : Bool
  deriving DecidableEq

/-- Initial values, lines 110-117: `MODE_READ`, region 0, count 1,
width `DEFAULT_WIDTH` = 4, forever 1. -/
def initConfig : Config := ⟨ModeType.read, 0, 1, 4, true⟩

/-- One parsed command-line option as getopt delivers it (option string
"hlmxr:n:w:", line 119). `unknown` is getopt's default case at line 162.
Numeric arguments are taken as already parsed by `strtoul`. -/
inductive Opt where
  | h
  | l
  | m
  | x
  | r (v : Nat)
  | n (v : Nat)
  | w (v : Nat)
  | unknown
  deriving DecidableEq

/-- Result of the option loop: `usage(EXIT_SUCCESS)` for -h,
`exit(EXIT_FAILURE)` (from `list_devices`, a bad -r or -w value, or an
unknown option), or fall-through to the rest of `main` with the final
`Config`. -/
inductive OptResult where
  | exitSuccess
  | exitFailure
  | proceed (cfg : Config)
  deriving DecidableEq

/-- The getopt loop of lines 119-166. For `-r` the value is stored and
then any nonzero region exits with failure (lines 133-143); for `-w`
likewise any width other than 4 exits with failure (lines 151-161);
`-n` stores the count unchecked (lines 144-150). -/
def processOpts (cfg : Config) : List Opt → OptResult
  | [] => OptResult.proceed cfg
  | Opt.h :: _ => OptResult.exitSuccess
  | Opt.l :: _ => OptResult.exitFailure
  | Opt.m :: rest => processOpts { cfg with mode := ModeType.monitor } rest
  | Opt.x :: rest =>
    processOpts { cfg with mode := ModeType.monitor, forever := false } rest
  | Opt.r v :: rest =>
    if v = 0 then processOpts { cfg with region := v } rest else OptResult.exitFailure
  | Opt.n v :: rest => processOpts { cfg with count := v } rest
  | Opt.w v :: rest =>
    if v = 4 then processOpts { cfg with width := v } rest else OptResult.exitFailure
  | Opt.unknown :: _ => OptResult.exitFailure

/-- Number of device-file `open` calls an invocation issues. The option
loop itself performs no I/O, so every exit taken inside it leaves the
device file untouched; each of the two fall-through paths (monitor,
line 79; register access, line 207) opens the device file exactly once
afterwards, and all mmap/read/write I/O can only follow that open. -/
def invocationOpens (opts : List Opt) : Nat :=
  match processOpts initConfig opts with
  | OptResult.proceed _ => 1
  | _ => 0

/-- Promotion of a `char` holding byte `b` to `int`, as in the expression
of line 101, under the signed-char SysV ABI: bytes 128..255 are negative
when promoted. -/
def signedChar (b : Nat) : Int := if b < 128 then (b : Int) else (b : Int) - 256

/-- The counter expression of line 101:
`buf[3] * 16777216 + buf[2] * 65536 + buf[1] * 256 + buf[0]`, with each
`buf[i]` a `char` holding byte `bi`. -/
def decodeCounter (b0 b1 b2 b3 : Nat) : Int :=
  signedChar b3 * 16777216 + signedChar b2 * 65536 + signedChar b1 * 256 + signedChar b0

/-- Behaviour of the device file during one iteration of the monitor
loop: the byte counts returned by `pwrite` (line 86) and `pread`
(line 93), the four bytes deposited in `buf`, and the `ftime` timestamp
of line 94. -/
structure IterResp where
  writeBytes : Nat
  readBytes : Nat
  b0 : Nat
  b1 : Nat
  b2 : Nat
  b3 : Nat
  sec : Nat
  ms : Nat
  deriving DecidableEq

/-- One syscall the monitor issues against the device file descriptor. -/
inductive Syscall where
  | pwrite (data : List Nat) (len off : Nat)
  | pread (len off : Nat)
  deriving DecidableEq

/-- One reported interrupt, line 100: decoded counter plus timestamp. -/
structure Event where
  counter : Int
  sec : Nat
  ms : Nat
  deriving DecidableEq

/-- Terminal state of a monitor run over a finite device trace:
`pending` when the trace is exhausted with the loop still running,
`failed` for `exit(EXIT_FAILURE)` after a short transfer (lines 87-91 and
95-99), `succeeded` for `exit(EXIT_SUCCESS)` at line 104. -/
inductive LoopOutcome where
  | pending
  | failed
  | succeeded
  deriving DecidableEq

/-- A monitor run: the syscalls issued against the device file, the
reported events, and the terminal state. -/
structure MonitorRun where
  calls : List Syscall
  events : List Event
  outcome : LoopOutcome
  deriving DecidableEq

/-- The do/while loop of lines 85-102, driven by a finite trace of device
responses. Each iteration issues `pwrite(fd, startval, 4, 0)` with
`startval = {0,0,0,1}` (lines 76 and 86), fatal on a short write; then
`pread(fd, buf, 4, 0)` (line 93), fatal on a short read; then one event
is reported (lines 100-101); the loop repeats while `forever` holds. -/
def monitorLoop (forever : Bool) : List IterResp → MonitorRun
  | [] => ⟨[], [], LoopOutcome.pending⟩
  | resp :: rest =>
    if resp.writeBytes = 4 then
      if resp.readBytes = 4 then
        let ev : Event := ⟨decodeCounter resp.b0 resp.b1 resp.b2 resp.b3, resp.sec, resp.ms⟩
        if forever then
          let m := monitorLoop forever rest
          ⟨Syscall.pwrite [0, 0, 0, 1] 4 0 :: Syscall.pread 4 0 :: m.calls,
            ev :: m.events, m.outcome⟩
        else
          ⟨[Syscall.pwrite [0, 0, 0, 1] 4 0, Syscall.pread 4 0], [ev], LoopOutcome.succeeded⟩
      else ⟨[Syscall.pwrite [0, 0, 0, 1] 4 0, Syscall.pread 4 0], [], LoopOutcome.failed⟩
    else ⟨[Syscall.pwrite [0, 0, 0, 1] 4 0], [], LoopOutcome.failed⟩

/-- Follows the spec's words (section 7 BoundsError, section 8 bounds
enforcement): whether `addr + 4 * n` stays within the mapped length.
The code computes no such predicate. -/
def boundsOk (len addr n : Nat) : Bool := addr + 4 * n ≤ len

/-- Follows the spec's words: `read_words` amended with the BoundsError
rejection the spec mandates (`none` = BoundsError, issued before any
access). The code's read loop `readWords` has no such branch. -/
def readWordsSpec (mem : Nat → Nat) (len addr n : Nat) : Option (List (Nat × Nat)) :=
  if boundsOk len addr n then some (readWords mem addr n) else none

theorem readWords_length (mem : Nat → Nat) :
    ∀ n addr : Nat, (readWords mem addr n).length = n := by
  intro n
  induction n with
  | zero => intro addr; rfl
  | succ k ih => intro addr; simp [readWords, ih]

theorem readWords_getEntry (mem : Nat → Nat) :
    ∀ n start i : Nat, i < n →
      (readWords mem start n).get? i = some (start + 4 * i, readWordAt mem (start + 4 * i)) := by
  intro n
  induction n with
  | zero => intro start i h; exact absurd h (Nat.not_lt_zero i)
  | succ k ih =>
    intro start i h
    cases i with
    | zero => simp [readWords]
    | succ j =>
      have h2 := ih (start + 4) j (by omega)
      have h3 : start + 4 + 4 * j = start + 4 * (j + 1) := by ring
      rw [h3] at h2
      simpa [readWords] using h2

theorem readWords_mem_snd (mem : Nat → Nat) :
    ∀ (n start : Nat) (p : Nat × Nat), p ∈ readWords mem start n →
      p.2 = readWordAt mem p.1 := by
  intro n
  induction n with
  | zero => intro start p hp; simp [readWords] at hp
  | succ k ih =>
    intro start p hp
    simp only [readWords, List.mem_cons] at hp
    rcases hp with hp | hp
    · subst hp; rfl
    · exact ih (start + 4) p hp

theorem readWordAt_lt (mem : Nat → Nat) (hmem : ∀ a, mem a < 256) (x : Nat) :
    readWordAt mem x < 4294967296 := by
  have h0 := hmem x
  have h1 := hmem (x + 1)
  have h2 := hmem (x + 2)
  have h3 := hmem (x + 3)
  simp only [readWordAt]
  omega

theorem hexDigits_length_le : ∀ k n : Nat, n < 16 ^ k → (hexDigits n).length ≤ max k 1 := by
  intro k
  induction k with
  | zero =>
    intro n hn
    have hn0 : n = 0 := by simpa using hn
    subst hn0
    rw [hexDigits]
    simp
  | succ k ih =>
    intro n hn
    rw [hexDigits]
    split
    · simpa using le_max_right (k + 1) 1
    · rename_i hge
      have hk : 1 ≤ k := by
        by_contra hk0
        have hz : k = 0 := by omega
        subst hz
        norm_num at hn
        omega
      have hd : n / 16 < 16 ^ k := by
        rw [Nat.div_lt_iff_lt_mul (by norm_num : (0:Nat) < 16)]
        calc n < 16 ^ (k + 1) := hn
          _ = 16 ^ k * 16 := by ring
      have ihd := ih (n / 16) hd
      rw [Nat.max_eq_left hk] at ihd
      rw [Nat.max_eq_left (by omega : 1 ≤ k + 1)]
      simp only [List.length_append, List.length_cons, List.length_nil]
      omega

theorem hex8_length (v : Nat) (hv : v < 4294967296) : (hex8 v).length = 8 := by
  have hpow : (16 : Nat) ^ 8 = 4294967296 := by norm_num
  have h1 : (hexDigits v).length ≤ 8 := by
    have h2 := hexDigits_length_le 8 v (by rw [hpow]; exact hv)
    exact le_trans h2 (by decide)
  have h3 : (hex8 v).length = (pad8 (hexDigits v)).length := rfl
  rw [h3]
  simp only [pad8, List.length_append, List.length_replicate]
  omega

/-- C3: `write_word` followed by `read_words` of one word at the same
address returns exactly the written 32-bit value: the store of line 224
places the four little-endian bytes of `v` in the mapping and the load of
line 219 re-assembles them. -/
theorem write_read_roundtrip (mem : Nat → Nat) (addr v : Nat) (hv : v < 4294967296) :
    readWords (writeWord mem addr v) addr 1 = [(addr, v)] := by
  have h1 : addr + 1 ≠ addr := by omega
  have h2 : addr + 2 ≠ addr := by omega
  have h3 : addr + 2 ≠ addr + 1 := by omega
  have h4 : addr + 3 ≠ addr := by omega
  have h5 : addr + 3 ≠ addr + 1 := by omega
  have h6 : addr + 3 ≠ addr + 2 := by omega
  simp [readWords, readWordAt, writeWord, h1, h2, h3, h4, h5, h6]
  omega

/-- Witness for C3 at address 12 and value 0x12345678. -/
theorem write_read_roundtrip_witness :
    305419896 < 4294967296 ∧
      readWords (writeWord (fun _ => 0) 12 305419896) 12 1 = [(12, 305419896)] :=
  ⟨by decide, write_read_roundtrip (fun _ => 0) 12 305419896 (by decide)⟩

/-- C4: the read loop yields exactly `n` entries, the i-th (0-based) at
address `start + 4 * i` — hence in ascending address order — and the
emitted lines are the `printf("0x%08x\t%08x\n", addr, value)` renderings
of the entries, each with a value field of exactly 8 hex digits. -/
theorem read_words_progression_format (mem : Nat → Nat) (start n : Nat)
    (hn : 1 ≤ n) (hmem : ∀ a, mem a < 256) :
    (readWords mem start n).length = n ∧
      (∀ i, i < n → (readWords mem start n).get? i
        = some (start + 4 * i, readWordAt mem (start + 4 * i))) ∧
      (∀ p ∈ readWords mem start n, (hex8 p.2).length = 8) ∧
      (runReadMode true true mem start n).lines
        = (readWords mem start n).map fun p => printLine p.1 p.2 := by
  refine ⟨readWords_length mem n start, fun i hi => readWords_getEntry mem n start i hi, ?_, ?_⟩
  · intro p hp
    rw [readWords_mem_snd mem n start p hp]
    exact hex8_length _ (readWordAt_lt mem hmem p.1)
  · simp [runReadMode, openForRegisters]

/-- Witness for C4 with a two-word read of an all-zero mapping. -/
theorem read_words_progression_format_witness :
    1 ≤ 2 ∧ (readWords (fun _ => 0) 0 2).length = 2 :=
  ⟨by decide,
    (read_words_progression_format (fun _ => 0) 0 2 (by decide) (fun _ => by norm_num)).1⟩

/-- C6 (amended): the code performs the mapped access unconditionally.
Even when `addr + 4 * n` exceeds the mapped length `len`, the read loop
still yields its `n` entries and the store of line 224 still deposits the
value's low byte at `addr`; no BoundsError exists anywhere in the code. -/
theorem bounds_unchecked_access (mem : Nat → Nat) (len addr v n : Nat)
    (hout : len < addr + 4 * n) :
    (readWords mem addr n).length = n ∧ writeWord mem addr v addr = v % 256 :=
  ⟨readWords_length mem n addr, by simp [writeWord]⟩

/-- Witness for the amended C6: a 4-byte mapping, a read and a write at
offset 8. -/
theorem bounds_unchecked_access_witness :
    4 < 8 + 4 * 1 ∧
      ((readWords (fun _ => 0) 8 1).length = 1 ∧ writeWord (fun _ => 0) 8 5 8 = 5 % 256) :=
  ⟨by decide, bounds_unchecked_access (fun _ => 0) 4 8 5 1 (by decide)⟩

/-- C6 counterexample: with a mapped length of 4 bytes, a one-word read at
offset 8 (so `8 + 4 * 1 > 4`) is not rejected: the code's loop produces an
entry read from the mapping, the code's store mutates the mapping at
offset 8, while the spec-mandated checked variant rejects the request
with BoundsError (`none`). -/
theorem bounds_unchecked_counterexample :
    readWords (fun _ => 0) 8 1 = [(8, 0)] ∧
      writeWord (fun _ => 0) 8 5 8 = 5 ∧
      readWordsSpec (fun _ => 0) 4 8 1 = none := by decide

/-- C7 (code bug): when open succeeds and mmap fails, `main` neither
reports a MapError nor closes the handle: the mmap result is never
checked, so the code proceeds into the access phase with the descriptor
still open and the invalid mapping in hand. -/
theorem map_failure_leaves_handle_open :
    openForRegisters true false = (SessionOutcome.proceed false, true) := by decide

theorem processOpts_bad_width_region :
    ∀ (opts : List Opt) (cfg : Config), Opt.h ∉ opts →
      ((∃ v, Opt.w v ∈ opts ∧ v ≠ 4) ∨ (∃ v, Opt.r v ∈ opts ∧ v ≠ 0)) →
      processOpts cfg opts = OptResult.exitFailure := by
  intro opts
  induction opts with
  | nil =>
    rintro cfg _ (⟨v, hv, _⟩ | ⟨v, hv, _⟩) <;> simp at hv
  | cons o rest ih =>
    rintro cfg hh hbad
    have hhr : Opt.h ∉ rest := fun hc => hh (List.mem_cons_of_mem o hc)
    match o with
    | Opt.h => exact absurd (List.mem_cons_self _ _) hh
    | Opt.l => rfl
    | Opt.unknown => rfl
    | Opt.m =>
      refine ih _ hhr ?_
      rcases hbad with ⟨v, hv, hne⟩ | ⟨v, hv, hne⟩
      · rcases List.mem_cons.mp hv with hv0 | hv1
        · exact absurd hv0 (by simp)
        · exact Or.inl ⟨v, hv1, hne⟩
      · rcases List.mem_cons.mp hv with hv0 | hv1
        · exact absurd hv0 (by simp)
        · exact Or.inr ⟨v, hv1, hne⟩
    | Opt.x =>
      refine ih _ hhr ?_
      rcases hbad with ⟨v, hv, hne⟩ | ⟨v, hv, hne⟩
      · rcases List.mem_cons.mp hv with hv0 | hv1
        · exact absurd hv0 (by simp)
        · exact Or.inl ⟨v, hv1, hne⟩
      · rcases List.mem_cons.mp hv with hv0 | hv1
        · exact absurd hv0 (by simp)
        · exact Or.inr ⟨v, hv1, hne⟩
    | Opt.n v2 =>
      refine ih _ hhr ?_
      rcases hbad with ⟨v, hv, hne⟩ | ⟨v, hv, hne⟩
      · rcases List.mem_cons.mp hv with hv0 | hv1
        · exact absurd hv0 (by simp)
        · exact Or.inl ⟨v, hv1, hne⟩
      · rcases List.mem_cons.mp hv with hv0 | hv1
        · exact absurd hv0 (by simp)
        · exact Or.inr ⟨v, hv1, hne⟩
    | Opt.r v2 =>
      by_cases hv2 : v2 = 0
      · simp only [processOpts, hv2, if_pos rfl]
        refine ih _ hhr ?_
        rcases hbad with ⟨v, hv, hne⟩ | ⟨v, hv, hne⟩
        · rcases List.mem_cons.mp hv with hv0 | hv1
          · exact absurd hv0 (by simp)
          · exact Or.inl ⟨v, hv1, hne⟩
        · rcases List.mem_cons.mp hv with hv0 | hv1
          · rw [Opt.r.injEq] at hv0
            exact absurd (hv0.trans hv2) hne
          · exact Or.inr ⟨v, hv1, hne⟩
      · simp [processOpts, hv2]
    | Opt.w v2 =>
      by_cases hv2 : v2 = 4
      · simp only [processOpts, hv2, if_pos rfl]
        refine ih _ hhr ?_
        rcases hbad with ⟨v, hv, hne⟩ | ⟨v, hv, hne⟩
        · rcases List.mem_cons.mp hv with hv0 | hv1
          · rw [Opt.w.injEq] at hv0
            exact absurd (hv0.trans hv2) hne
          · exact Or.inl ⟨v, hv1, hne⟩
        · rcases List.mem_cons.mp hv with hv0 | hv1
          · exact absurd hv0 (by simp)
          · exact Or.inr ⟨v, hv1, hne⟩
      · simp [processOpts, hv2]

/-- C8: an invocation whose options request a width other than 4 or a
region other than 0 (and do not bail out earlier into the -h usage text)
exits with failure inside the option loop, before any device file is
opened — and hence before any map, read or write I/O, all of which can
only follow that open. -/
theorem width_region_rejected_before_open (opts : List Opt)
    (hh : Opt.h ∉ opts)
    (hbad : (∃ v, Opt.w v ∈ opts ∧ v ≠ 4) ∨ (∃ v, Opt.r v ∈ opts ∧ v ≠ 0)) :
    processOpts initConfig opts = OptResult.exitFailure ∧ invocationOpens opts = 0 := by
  have h1 := processOpts_bad_width_region opts initConfig hh hbad
  exact ⟨h1, by simp [invocationOpens, h1]⟩

/-- Witness for C8: the single option `-w 5`. -/
theorem width_region_rejected_before_open_witness :
    Opt.h ∉ [Opt.w 5] ∧
      (processOpts initConfig [Opt.w 5] = OptResult.exitFailure ∧
        invocationOpens [Opt.w 5] = 0) :=
  ⟨by decide,
    width_region_rejected_before_open [Opt.w 5] (by decide) (Or.inl ⟨5, by decide, by decide⟩)⟩

/-- C10: an explicit `-n 0` reaches the read path with count 0; the read
loop then runs zero iterations, so the invocation emits no output line,
never dereferences the mapping, and returns EXIT_SUCCESS — whether or not
the length-zero mmap produced a valid mapping. -/
theorem read_count_zero_success (mapOk : Bool) (mem : Nat → Nat) (addr : Nat) :
    processOpts initConfig [Opt.n 0] = OptResult.proceed ⟨ModeType.read, 0, 0, 4, true⟩ ∧
      runReadMode true mapOk mem addr 0 = ⟨0, 1, 0, []⟩ := by
  refine ⟨rfl, ?_⟩
  cases mapOk <;> simp [runReadMode, openForRegisters, readWords]

/-- C1: every syscall the monitor issues against the device file strictly
alternates, starting from the acknowledge write: the call at every even
position of the trace is exactly `pwrite` of the four bytes {0,0,0,1} at
offset 0, and the call at every odd position is exactly the 4-byte
`pread` at offset 0 — in every iteration the write precedes the read and
the two are distinct syscalls, for every device behaviour and both loop
modes. -/
theorem monitor_write_then_read_alternation (forever : Bool) (device : List IterResp)
    (i : Nat) (h : i < (monitorLoop forever device).calls.length) :
    (monitorLoop forever device).calls.get? i
      = some (if i % 2 = 0 then Syscall.pwrite [0, 0, 0, 1] 4 0 else Syscall.pread 4 0) := by
  induction device generalizing i with
  | nil => simp [monitorLoop] at h
  | cons resp rest ih =>
    by_cases hw : resp.writeBytes = 4
    · by_cases hr : resp.readBytes = 4
      · rcases Bool.eq_false_or_eq_true forever with hf | hf
        · subst hf
          have hu : monitorLoop true (resp :: rest)
              = ⟨Syscall.pwrite [0, 0, 0, 1] 4 0 :: Syscall.pread 4 0 ::
                    (monitorLoop true rest).calls,
                  ⟨decodeCounter resp.b0 resp.b1 resp.b2 resp.b3, resp.sec, resp.ms⟩ ::
                    (monitorLoop true rest).events,
                  (monitorLoop true rest).outcome⟩ := by
            simp [monitorLoop, hw, hr]
          rw [hu] at h ⊢
          match i, h with
          | 0, _ => rfl
          | 1, _ => rfl
          | (j + 2), h =>
            simp only [List.get?_cons_succ]
            have hj : j < (monitorLoop true rest).calls.length := by
              simp only [List.length_cons] at h
              omega
            have hrec := ih j hj
            rw [hrec]
            have hmod : (j + 2) % 2 = j % 2 := by omega
            rw [hmod]
        · subst hf
          have hu : monitorLoop false (resp :: rest)
              = ⟨[Syscall.pwrite [0, 0, 0, 1] 4 0, Syscall.pread 4 0],
                  [⟨decodeCounter resp.b0 resp.b1 resp.b2 resp.b3, resp.sec, resp.ms⟩],
                  LoopOutcome.succeeded⟩ := by
            simp [monitorLoop, hw, hr]
          rw [hu] at h ⊢
          match i, h with
          | 0, _ => rfl
          | 1, _ => rfl
          | (j + 2), h => exact absurd h (by simp)
      · have hu : monitorLoop forever (resp :: rest)
            = ⟨[Syscall.pwrite [0, 0, 0, 1] 4 0, Syscall.pread 4 0], [],
                LoopOutcome.failed⟩ := by
          simp [monitorLoop, hw, hr]
        rw [hu] at h ⊢
        match i, h with
        | 0, _ => rfl
        | 1, _ => rfl
        | (j + 2), h => exact absurd h (by simp)
    · have hu : monitorLoop forever (resp :: rest)
          = ⟨[Syscall.pwrite [0, 0, 0, 1] 4 0], [], LoopOutcome.failed⟩ := by
        simp [monitorLoop, hw]
      rw [hu] at h ⊢
      match i, h with
      | 0, _ => rfl
      | (j + 1), h => exact absurd h (by simp)

/-- Witness for C1: the first call of a one-interrupt run is the
acknowledge write. -/
theorem monitor_write_then_read_alternation_witness :
    0 < (monitorLoop true [⟨4, 4, 1, 0, 0, 0, 2, 3⟩]).calls.length ∧
      (monitorLoop true [⟨4, 4, 1, 0, 0, 0, 2, 3⟩]).calls.get? 0
        = some (Syscall.pwrite [0, 0, 0, 1] 4 0) := by
  refine ⟨by decide, ?_⟩
  have h := monitor_write_then_read_alternation true [⟨4, 4, 1, 0, 0, 0, 2, 3⟩] 0 (by decide)
  simpa using h

/-- C2 counterexample: with buf bytes {0x80, 0, 0, 0} the monitor reports
counter -128, not the little-endian unsigned decoding 128: `char` is
signed under the SysV ABI, so byte values 128..255 enter the line-101
expression as negative values. -/
theorem monitor_counter_decode_counterexample :
    (monitorLoop false [⟨4, 4, 128, 0, 0, 0, 7, 8⟩]).events = [⟨-128, 7, 8⟩] ∧
      ((-128 : Int) ≠ 0 * 16777216 + 0 * 65536 + 0 * 256 + 128) := by decide

/-- C2 (amended): for every 4-byte buffer whose bytes are each at most
127, the reported counter equals the little-endian decoding
`byte[3]*16777216 + byte[2]*65536 + byte[1]*256 + byte[0]`; bytes 128..255
instead contribute their value minus 256, because `buf` is an array of
(signed) `char`. -/
theorem monitor_counter_decode_low_bytes (resp : IterResp)
    (hw : resp.writeBytes = 4) (hr : resp.readBytes = 4)
    (h0 : resp.b0 < 128) (h1 : resp.b1 < 128) (h2 : resp.b2 < 128) (h3 : resp.b3 < 128) :
    (monitorLoop false [resp]).events
      = [⟨(resp.b3 : Int) * 16777216 + (resp.b2 : Int) * 65536
            + (resp.b1 : Int) * 256 + (resp.b0 : Int), resp.sec, resp.ms⟩] := by
  simp [monitorLoop, hw, hr, decodeCounter, signedChar, h0, h1, h2, h3]

/-- Witness for the amended C2 at buffer {2, 0, 0, 0}. -/
theorem monitor_counter_decode_low_bytes_witness :
    (⟨4, 4, 2, 0, 0, 0, 9, 1⟩ : IterResp).writeBytes = 4 ∧
      (monitorLoop false [⟨4, 4, 2, 0, 0, 0, 9, 1⟩]).events = [⟨2, 9, 1⟩] := by
  refine ⟨rfl, ?_⟩
  have h := monitor_counter_decode_low_bytes ⟨4, 4, 2, 0, 0, 0, 9, 1⟩ rfl rfl
    (by decide) (by decide) (by decide) (by decide)
  simpa using h

/-- C5: with the run-once flag (forever = false, set by -x), a monitor
iteration whose two transfers complete performs exactly one
acknowledge-write/blocking-read cycle, reports exactly one event, and
terminates with success — whatever further responses the device trace
holds. -/
theorem monitor_run_once_terminates (resp : IterResp) (rest : List IterResp)
    (hw : resp.writeBytes = 4) (hr : resp.readBytes = 4) :
    monitorLoop false (resp :: rest) =
      ⟨[Syscall.pwrite [0, 0, 0, 1] 4 0, Syscall.pread 4 0],
        [⟨decodeCounter resp.b0 resp.b1 resp.b2 resp.b3, resp.sec, resp.ms⟩],
        LoopOutcome.succeeded⟩ := by
  simp [monitorLoop, hw, hr]

/-- Witness for C5: one clean interrupt followed by a second pending one
that is never consumed. -/
theorem monitor_run_once_terminates_witness :
    monitorLoop false [⟨4, 4, 2, 0, 0, 0, 9, 1⟩, ⟨4, 4, 3, 0, 0, 0, 9, 2⟩] =
      ⟨[Syscall.pwrite [0, 0, 0, 1] 4 0, Syscall.pread 4 0],
        [⟨2, 9, 1⟩], LoopOutcome.succeeded⟩ := by
  have h := monitor_run_once_terminates ⟨4, 4, 2, 0, 0, 0, 9, 1⟩
    [⟨4, 4, 3, 0, 0, 0, 9, 2⟩] rfl rfl
  simpa [decodeCounter, signedChar] using h

theorem monitor_short_fatal_aux (rest : List IterResp) (resp : IterResp)
    (hshort : resp.writeBytes ≠ 4 ∨ resp.readBytes ≠ 4) :
    ∀ pre : List IterResp, (∀ p ∈ pre, p.writeBytes = 4 ∧ p.readBytes = 4) →
      (monitorLoop true (pre ++ resp :: rest)).outcome = LoopOutcome.failed ∧
        (monitorLoop true (pre ++ resp :: rest)).events.length = pre.length ∧
        (monitorLoop true (pre ++ resp :: rest)).calls.length
          = 2 * pre.length + (if resp.writeBytes = 4 then 2 else 1) := by
  intro pre
  induction pre with
  | nil =>
    intro _
    by_cases hw : resp.writeBytes = 4
    · have hr : resp.readBytes ≠ 4 := by
        rcases hshort with h | h
        · exact absurd hw h
        · exact h
      simp [monitorLoop, hw, hr]
    · simp [monitorLoop, hw]
  | cons p pre2 ih =>
    intro hpre
    have hp := hpre p (List.mem_cons_self p pre2)
    have ih2 := ih fun q hq => hpre q (List.mem_cons_of_mem p hq)
    have hunfold : monitorLoop true ((p :: pre2) ++ resp :: rest)
        = ⟨Syscall.pwrite [0, 0, 0, 1] 4 0 :: Syscall.pread 4 0 ::
              (monitorLoop true (pre2 ++ resp :: rest)).calls,
            ⟨decodeCounter p.b0 p.b1 p.b2 p.b3, p.sec, p.ms⟩ ::
              (monitorLoop true (pre2 ++ resp :: rest)).events,
            (monitorLoop true (pre2 ++ resp :: rest)).outcome⟩ := by
      simp [monitorLoop, hp.1, hp.2]
    rw [hunfold]
    refine ⟨ih2.1, ?_, ?_⟩
    · simp [ih2.2.1]
    · have hc := ih2.2.2
      generalize hX : (if resp.writeBytes = 4 then 2 else 1) = X at hc ⊢
      simp only [List.length_cons]
      omega

/-- C9: a short transfer in the monitor loop is fatal on the spot.
If every device response before position k transfers its full 4 bytes and
the response at position k is short on the write or on the read, the run
ends in the failed state, exactly k events were reported, and the syscall
trace stops at the failing call (2k+1 calls when the write itself was
short, 2k+2 when the read was) — no retry and no re-synchronization is
attempted, whatever the device would have delivered afterwards. -/
theorem monitor_short_transfer_fatal (forever : Bool) (pre rest : List IterResp)
    (resp : IterResp)
    (hpre : ∀ p ∈ pre, p.writeBytes = 4 ∧ p.readBytes = 4)
    (hfor : pre = [] ∨ forever = true)
    (hshort : resp.writeBytes ≠ 4 ∨ resp.readBytes ≠ 4) :
    (monitorLoop forever (pre ++ resp :: rest)).outcome = LoopOutcome.failed ∧
      (monitorLoop forever (pre ++ resp :: rest)).events.length = pre.length ∧
      (monitorLoop forever (pre ++ resp :: rest)).calls.length
        = 2 * pre.length + (if resp.writeBytes = 4 then 2 else 1) := by
  rcases hfor with hnil | htrue
  · subst hnil
    by_cases hw : resp.writeBytes = 4
    · have hr : resp.readBytes ≠ 4 := by
        rcases hshort with h | h
        · exact absurd hw h
        · exact h
      simp [monitorLoop, hw, hr]
    · simp [monitorLoop, hw]
  · subst htrue
    exact monitor_short_fatal_aux rest resp hshort pre hpre

/-- Witness for C9: one clean iteration, then a read that transfers only
2 bytes. -/
theorem monitor_short_transfer_fatal_witness :
    (monitorLoop true [⟨4, 4, 0, 0, 0, 0, 5, 5⟩, ⟨4, 2, 0, 0, 0, 0, 6, 6⟩]).outcome
        = LoopOutcome.failed ∧
      (monitorLoop true [⟨4, 4, 0, 0, 0, 0, 5, 5⟩, ⟨4, 2, 0, 0, 0, 0, 6, 6⟩]).events.length
        = 1 ∧
      (monitorLoop true [⟨4, 4, 0, 0, 0, 0, 5, 5⟩, ⟨4, 2, 0, 0, 0, 0, 6, 6⟩]).calls.length
        = 4 := by
  have h := monitor_short_transfer_fatal true [⟨4, 4, 0, 0, 0, 0, 5, 5⟩] []
    ⟨4, 2, 0, 0, 0, 0, 6, 6⟩ (by decide) (Or.inr rfl) (Or.inr (by decide))
  simpa using h

end Uioctl
